import Mathlib

/-!
Shallow embedding of the `load-rs` goal/holder core (src/goal.rs, src/holder.rs,
src/status.rs, src/view.rs) together with theorems settling the frozen claims.

Conventions of the embedding:
* `usize` identifiers become `Nat`; `GoalId::NONE` is `0`.
* `HashMap` becomes an association list (`alookup` / `aupdate`), `HashSet`
  becomes a `List` used as a set; iteration order of a Rust `HashSet` is
  unspecified, so any fixed list order is a faithful refinement.
* Fallible code returns `Res`: `ok` for normal results, `err` for the typed
  `GoalError` channel, and `fatal` for Rust panics (assertion failures,
  `unwrap` on `Err`, index-out-of-bounds, `panic!`).
* Stateful `&mut self` methods take and return the holder explicitly; `&self`
  methods are pure functions of the holder.
* The generic `GoalHandler` observer is modelled by an event log
  (`handler_log`): `handle_goal_status_change(goal, status)` appends
  `(goal.name, status)`.
* The `RwLock`/`Arc` wrapper disappears in this sequential embedding: taking
  the read or write lock is the identity, and the two-phase locking of
  `sub_goal` becomes plain sequencing.
-/

namespace LoadRs

/-- Embedding of `Outcome` (src/status.rs). `Failed(Box<dyn Error>)` carries an
opaque cause used only for reporting; it is modelled as an opaque `String`. -/
inductive Outcome where
  | skipped : Outcome
  | success : Outcome
  | failed : String → Outcome
deriving DecidableEq

/-- Embedding of `Status` (src/status.rs). -/
inductive Status where
  | waiting : Status
  | inProgress : Status
  | finished : Outcome → Status
deriving DecidableEq

/-- Embedding of `GoalError` (src/goal.rs). Only the two variants the embedded
core ever constructs are modelled; `IoError`/`Anyhow` are pass-through wrappers
never produced by the holder or goal code. -/
inductive GoalError where
  | missingGoal : Nat → GoalError
  | missingGoalName : String → GoalError
deriving DecidableEq

/-- Result type of the embedded operations: `ok`/`err` mirror Rust's
`Result<_, GoalError>`, while `fatal` marks a Rust panic (a process abort,
distinct from the typed error channel). -/
inductive Res (α : Type) where
  | ok : α → Res α
  | err : GoalError → Res α
  | fatal : String → Res α
deriving DecidableEq

/-- Lookup in an association list, modelling `HashMap::get`. -/
def alookup {α β : Type} [DecidableEq α] : List (α × β) → α → Option β
  | [], _ => none
  | (k, v) :: rest, a => if k = a then some v else alookup rest a

/-- Insert-or-overwrite in an association list, modelling both arms of the
`HashMap` entry API used by `set_goal_status` (occupied: overwrite; vacant:
insert). -/
def aupdate {α β : Type} [DecidableEq α] : List (α × β) → α → β → List (α × β)
  | [], a, b => [(a, b)]
  | (k, v) :: rest, a, b => if k = a then (a, b) :: rest else (k, v) :: aupdate rest a b

/-- Embedding of petgraph's `DiGraphMap<GoalId, ()>`: a node set and a directed
edge set, both kept as duplicate-free lists. -/
structure GGraph where
  nodes : List Nat
  edges : List (Nat × Nat)
deriving DecidableEq

/-- `DiGraphMap::add_node`: inserts the node if absent. -/
def GGraph.addNode (g : GGraph) (a : Nat) : GGraph :=
  if a ∈ g.nodes then g else { g with nodes := g.nodes ++ [a] }

/-- `DiGraphMap::add_edge`: implicitly inserts missing endpoints as nodes, then
inserts the edge if absent (the `()` weight makes re-insertion a no-op). -/
def GGraph.addEdge (g : GGraph) (a b : Nat) : GGraph :=
  let g1 := (g.addNode a).addNode b
  if (a, b) ∈ g1.edges then g1 else { g1 with edges := g1.edges ++ [(a, b)] }

/-- Well-formedness maintained by `add_node`/`add_edge`: every edge endpoint is
a node of the graph. -/
def GGraph.WF (g : GGraph) : Prop :=
  ∀ e ∈ g.edges, e.1 ∈ g.nodes ∧ e.2 ∈ g.nodes

instance ggraphWFDecidable (g : GGraph) : Decidable g.WF :=
  List.decidableBAll _ g.edges

/-- Reachability along directed edges: `Reach g a b` holds when `b` is `a`
itself or a transitive descendant of `a`. This is the specification-side
notion of "the identifier itself together with the full transitive closure of
its descendants". -/
inductive GGraph.Reach (g : GGraph) : Nat → Nat → Prop where
  | refl (a : Nat) : GGraph.Reach g a a
  | step {a b c : Nat} : GGraph.Reach g a b → (b, c) ∈ g.edges → GGraph.Reach g a c

/-- The view of a goal that the `Goal` trait exposes to the holder: `name()`,
`parent_goal()` and `child_goals()` (src/goal.rs, trait `Goal`). -/
structure GoalRec where
  name : String
  parent_goal : Option Nat
  child_goals : List Nat
deriving DecidableEq

/-- Embedding of `DefaultHolder` (src/holder.rs). The generic `goal_handler`
field is modelled as the log of observer notifications it has received. -/
structure DefaultHolder where
  name_to_id : List (String × Nat)
  all_ids : List Nat
  goal_id_to_status : List (Nat × Status)
  default_status : Status
  next_id : Nat
  goal_graph : GGraph
  handler_log : List (String × Status)
deriving DecidableEq

/-- Modelled from the spec: src/ contains no constructor for `DefaultHolder`
(its fields are private and nothing in the five source files initialises
them), so the initial state follows spec section 4.1 (the identifier counter
starts at 1, with 0 reserved as the sentinel) and sections 3/4.3 (statuses
default to Waiting; the name index, id set, status table and graph all start
empty). -/
def DefaultHolder.initial : DefaultHolder :=
  { name_to_id := []
    all_ids := []
    goal_id_to_status := []
    default_status := Status.waiting
    next_id := 1
    goal_graph := { nodes := [], edges := [] }
    handler_log := [] }

/-- Embedding of `DefaultHolder::add_goal` (src/holder.rs lines 114-140):
take the next identifier and bump the counter, fail fatally if the name is
already mapped (`panic!("Goal Already Exists …")`), otherwise insert the
name mapping, add the node, the parent edge (when `parent_goal()` is `Some`)
and the pre-declared child edges.  Note that the source never touches
`all_ids` here. -/
def add_goal (h : DefaultHolder) (goal : GoalRec) : DefaultHolder × Res Nat :=
  let goal_id := h.next_id
  let h1 : DefaultHolder := { h with next_id := h.next_id + 1 }
  match alookup h1.name_to_id goal.name with
  | some _ => (h1, Res.fatal ("Goal Already Exists (name = " ++ goal.name ++ ")"))
  | none =>
    let graph1 := h1.goal_graph.addNode goal_id
    let graph2 :=
      match goal.parent_goal with
      | some p => graph1.addEdge p goal_id
      | none => graph1
    let graph3 := goal.child_goals.foldl (fun gr c => gr.addEdge goal_id c) graph2
    ({ h1 with name_to_id := (goal.name, goal_id) :: h1.name_to_id, goal_graph := graph3 },
      Res.ok goal_id)

/-- Embedding of `DefaultHolder::get_goal_outcome` (src/holder.rs lines
142-150): only identifiers in `all_ids` resolve; the status table is consulted
with `default_status` as fallback. -/
def get_goal_outcome (h : DefaultHolder) (id : Nat) : Res Status :=
  if id ∈ h.all_ids then
    Res.ok ((alookup h.goal_id_to_status id).getD h.default_status)
  else
    Res.err (GoalError.missingGoal id)

/-- Embedding of `DefaultHolder::get_goal_id` (src/holder.rs lines 152-156). -/
def get_goal_id (h : DefaultHolder) (name : String) : Res Nat :=
  match alookup h.name_to_id name with
  | some i => Res.ok i
  | none => Res.err (GoalError.missingGoalName name)

/-- Embedding of `DefaultHolder::set_goal_status` (src/holder.rs lines
158-179): resolve the id by name (propagating `MissingGoalName`), overwrite or
insert the status entry, then re-read the stored status and notify the
observer (`handle_goal_status_change`), modelled as appending to
`handler_log`.  The re-read uses `HashMap::index`, which panics if the entry
is absent. -/
def set_goal_status (h : DefaultHolder) (goal : GoalRec) (status : Status) :
    DefaultHolder × Res Unit :=
  match get_goal_id h goal.name with
  | Res.err e => (h, Res.err e)
  | Res.fatal m => (h, Res.fatal m)
  | Res.ok id =>
    let h2 : DefaultHolder := { h with goal_id_to_status := aupdate h.goal_id_to_status id status }
    match alookup h2.goal_id_to_status id with
    | none => (h2, Res.fatal "no entry found for key")
    | some st => ({ h2 with handler_log := h2.handler_log ++ [(goal.name, st)] }, Res.ok ())

/-- Embedding of `DefaultHolder::all_goals` (src/holder.rs lines 181-183):
copies the `all_ids` set. -/
def all_goals (h : DefaultHolder) : List Nat :=
  h.all_ids

/-- Embedding of `DefaultHolder::get_parent` (src/holder.rs lines 185-199):
missing node is a typed error; the incoming neighbours are collected into a
`Vec`; more than one is an explicit `panic!`; then `result.remove(0)` is
executed, which panics with an index-out-of-bounds when the `Vec` is empty
(the zero-incoming-edge case). -/
def get_parent (h : DefaultHolder) (id : Nat) : Res Nat :=
  if id ∈ h.goal_graph.nodes then
    let result := h.goal_graph.edges.filterMap (fun e => if e.2 = id then some e.1 else none)
    if result.length > 1 then
      Res.fatal "Can not have more than one parent"
    else
      match result with
      | [] => Res.fatal "removal index (is 0) should be < len (is 0)"
      | p :: _ => Res.ok p
  else
    Res.err (GoalError.missingGoal id)

/-- Embedding of `DefaultHolder::get_direct_children` (src/holder.rs lines
201-207): missing node is a typed error, otherwise the outgoing-edge targets. -/
def get_direct_children (h : DefaultHolder) (id : Nat) : Res (List Nat) :=
  if id ∈ h.goal_graph.nodes then
    Res.ok (h.goal_graph.edges.filterMap (fun e => if e.1 = id then some e.2 else none))
  else
    Res.err (GoalError.missingGoal id)

/-- Fuel for the `get_all_children` worklist loop.  The Rust `while let` loop
terminates because the visited set guards re-processing; the fuel is a strict
upper bound on the number of iterations (each unvisited node is processed at
most once, pushing at most one stack entry per edge), so the fuel-exhaustion
branch below is never reached. -/
def gacFuel (h : DefaultHolder) : Nat :=
  h.goal_graph.nodes.length * (h.goal_graph.edges.length + 1) + 2

/-- Embedding of the loop body of the default `GoalHolder::get_all_children`
(src/holder.rs lines 30-51).  The Rust `Vec` stack is a list whose head is the
top: `pop` takes the head and `push` conses.  A popped id already in `visited`
is skipped; otherwise it is added to `output`, its direct children (propagating
their lookup error via `?`) are pushed, and it is marked visited. -/
def gacLoop (h : DefaultHolder) : Nat → List Nat → List Nat → List Nat → Res (List Nat)
  | 0, _, _, _ => Res.fatal "out of fuel"
  | fuel + 1, stack, visited, output =>
    match stack with
    | [] => Res.ok output
    | id :: rest =>
      if id ∈ visited then
        gacLoop h fuel rest visited output
      else
        match get_direct_children h id with
        | Res.err e => Res.err e
        | Res.fatal m => Res.fatal m
        | Res.ok children =>
          gacLoop h fuel (children.foldl (fun s c => c :: s) rest) (id :: visited) (id :: output)

/-- Embedding of `GoalHolder::get_all_children` (src/holder.rs lines 30-51):
the worklist traversal started from a singleton stack with empty visited and
output sets. -/
def get_all_children (h : DefaultHolder) (id : Nat) : Res (List Nat) :=
  gacLoop h (gacFuel h) [id] [] []

/-- Embedding of the `for child in children` loop of
`GoalHolder::all_children_finished` (src/holder.rs lines 55-61): each child's
outcome lookup error is propagated by `?`; the first non-`Finished` status
returns `false`; otherwise `true`. -/
def acfLoop (h : DefaultHolder) : List Nat → Res Bool
  | [] => Res.ok true
  | c :: rest =>
    match get_goal_outcome h c with
    | Res.err e => Res.err e
    | Res.fatal m => Res.fatal m
    | Res.ok (Status.finished _) => acfLoop h rest
    | Res.ok _ => Res.ok false

/-- Embedding of `GoalHolder::all_children_finished` (src/holder.rs lines
53-63): traverse `get_all_children` (propagating its error), then scan the
children's outcomes. -/
def all_children_finished (h : DefaultHolder) (id : Nat) : Res Bool :=
  match get_all_children h id with
  | Res.err e => Res.err e
  | Res.fatal m => Res.fatal m
  | Res.ok children => acfLoop h children

/-- Embedding of `DefaultGoal` (src/goal.rs lines 78-87): the holder reference
is implicit in the embedding (operations take the holder explicitly). -/
structure DefaultGoal where
  name : String
  parent_goal : Nat
  my_id : Nat
  child_goals : List Nat
deriving DecidableEq

/-- The `Goal`-trait view of a `DefaultGoal`: `parent_goal()` always returns
`Some(&self.parent_goal)` (src/goal.rs lines 109-111). -/
def DefaultGoal.toRec (g : DefaultGoal) : GoalRec :=
  { name := g.name, parent_goal := some g.parent_goal, child_goals := g.child_goals }

/-- Embedding of `DefaultGoal::new` (src/goal.rs lines 93-103): asserts a
non-empty name and a non-sentinel parent, then constructs the unregistered
goal with `my_id = GoalId::NONE` (0) and no children. -/
def DefaultGoal.new (name : String) (parent : Nat) : Res DefaultGoal :=
  if name = "" then Res.fatal "Must have a name"
  else if parent = 0 then Res.fatal "Must have a parent goal"
  else Res.ok { name := name, parent_goal := parent, my_id := 0, child_goals := [] }

/-- Embedding of `DefaultGoal::sub_goal` (src/goal.rs lines 125-152):
construct the child with `self.my_id` as parent, run the optional configure
step under the (sequentially trivial) read lock, then under the write lock
call `add_goal` — whose returned identifier is discarded, exactly as in
`holder.add_goal(&goal);` — and return the child unchanged together with the
mutated holder. -/
def DefaultGoal.sub_goal (self : DefaultGoal) (h : DefaultHolder) (name : String)
    (configure : Option (DefaultHolder → DefaultGoal → DefaultGoal)) :
    Res (DefaultGoal × DefaultHolder) :=
  match DefaultGoal.new name self.my_id with
  | Res.fatal m => Res.fatal m
  | Res.err e => Res.err e
  | Res.ok g0 =>
    let goal :=
      match configure with
      | none => g0
      | some f => f h g0
    match add_goal h goal.toRec with
    | (h2, Res.ok _) => Res.ok (goal, h2)
    | (_, Res.fatal m) => Res.fatal m
    | (_, Res.err e) => Res.err e

/-- Embedding of `RootGoal` (src/goal.rs lines 156-202): a wrapper around an
inner `DefaultGoal`. -/
structure RootGoal where
  inner_goal : DefaultGoal
deriving DecidableEq

/-- `RootGoal::name` delegates to the inner goal. -/
def RootGoal.name (r : RootGoal) : String :=
  r.inner_goal.name

/-- Embedding of `RootGoal::new` (src/goal.rs lines 190-202): builds the inner
`DefaultGoal` literal with sentinel parent and sentinel `my_id`; note that it
registers nothing with the holder. -/
def RootGoal.new (name : String) : RootGoal :=
  { inner_goal := { name := name, parent_goal := 0, my_id := 0, child_goals := [] } }

/-- Embedding of `GoalContainer` (src/view.rs lines 7-10). -/
structure GoalContainer where
  holder : DefaultHolder
  root_goal : RootGoal
deriving DecidableEq

/-- Embedding of `GoalContainer::new` (src/view.rs lines 14-21). -/
def GoalContainer.new (name : String) (holder : DefaultHolder) : GoalContainer :=
  { holder := holder, root_goal := RootGoal.new name }

/-- Embedding of `GoalContainer::all_goals` (src/view.rs lines 31-35): looks up
the root goal's id by name and traverses; both `.unwrap()` calls panic on an
`Err` value. -/
def GoalContainer.all_goals (c : GoalContainer) : Res (List Nat) :=
  match get_goal_id c.holder c.root_goal.name with
  | Res.err _ => Res.fatal "called unwrap on an Err value"
  | Res.fatal m => Res.fatal m
  | Res.ok gid =>
    match get_all_children c.holder gid with
    | Res.err _ => Res.fatal "called unwrap on an Err value"
    | Res.fatal m => Res.fatal m
    | Res.ok s => Res.ok s

/-- A sequence of `add_goal` calls on the same holder, collecting the
identifiers of the successful registrations; a fatal duplicate-name failure
aborts the run (the Rust panic kills the process). -/
def add_goals : DefaultHolder → List GoalRec → DefaultHolder × List Nat
  | h, [] => (h, [])
  | h, g :: gs =>
    match add_goal h g with
    | (h2, Res.ok i) =>
      let r := add_goals h2 gs
      (r.1, i :: r.2)
    | (h2, _) => (h2, [])

/-- Transitivity of reachability. -/
lemma GGraph.Reach.trans {g : GGraph} {a b c : Nat}
    (h1 : g.Reach a b) (h2 : g.Reach b c) : g.Reach a c := by
  induction h2 with
  | refl => exact h1
  | step _ he ih => exact GGraph.Reach.step ih he

/-- A list closed under outgoing edges that contains `a` contains everything
reachable from `a`. -/
lemma reach_mem_of_closed (g : GGraph) (S : List Nat)
    (hcl : ∀ v ∈ S, ∀ c, (v, c) ∈ g.edges → c ∈ S)
    {a y : Nat} (ha : a ∈ S) (hr : g.Reach a y) : y ∈ S := by
  induction hr with
  | refl => exact ha
  | step _ he ih => exact hcl _ ih _ he

/-- Folding `push` over a list is reversal plus append (Rust's `Vec::push`
performed once per child, with the list head as the top of the stack). -/
lemma foldl_cons_eq (l : List Nat) : ∀ init : List Nat,
    List.foldl (fun s c => c :: s) init l = l.reverse ++ init := by
  induction l with
  | nil => intro init; simp
  | cons a t ih =>
    intro init
    rw [List.foldl_cons, ih (a :: init), List.reverse_cons, List.append_assoc]
    simp

/-- Strict decrease of a filter's length when an element satisfying the weaker
predicate but not the stronger one is present. -/
lemma filter_length_lt_of_witness (p q : Nat → Bool)
    (himp : ∀ x, p x = true → q x = true) (l : List Nat) (a : Nat)
    (ha : a ∈ l) (hpa : p a = false) (hqa : q a = true) :
    (l.filter p).length < (l.filter q).length := by
  have hsub := List.monotone_filter_right l himp
  rcases Nat.lt_or_ge (l.filter p).length (l.filter q).length with hlt | hge
  · exact hlt
  · exfalso
    have heq : l.filter p = l.filter q :=
      hsub.eq_of_length (Nat.le_antisymm hsub.length_le hge)
    have hmem : a ∈ l.filter p := heq ▸ List.mem_filter.mpr ⟨ha, hqa⟩
    have := (List.mem_filter.mp hmem).2
    rw [hpa] at this
    exact Bool.false_ne_true this

/-- A successful `add_goal` returns the pre-increment counter value and leaves
the counter bumped by one. -/
lemma add_goal_ok (h : DefaultHolder) (g : GoalRec) (h2 : DefaultHolder) (i : Nat)
    (hok : add_goal h g = (h2, Res.ok i)) :
    i = h.next_id ∧ h2.next_id = h.next_id + 1 := by
  simp only [add_goal] at hok
  split at hok
  · simp at hok
  · simp only [Prod.mk.injEq, Res.ok.injEq] at hok
    obtain ⟨hh2, hi⟩ := hok
    subst hh2
    exact ⟨hi.symm, rfl⟩

/-- Every identifier collected by `add_goals` is at least the starting counter,
and the collected identifiers are strictly increasing. -/
lemma add_goals_ids (gs : List GoalRec) : ∀ h : DefaultHolder,
    (∀ i ∈ (add_goals h gs).2, h.next_id ≤ i) ∧
    ((add_goals h gs).2).Pairwise (fun a b => a < b) := by
  induction gs with
  | nil => intro h; simp [add_goals]
  | cons g gs ih =>
    intro h
    rcases hres : add_goal h g with ⟨h2, r⟩
    cases r with
    | ok i =>
      obtain ⟨hi, hnext⟩ := add_goal_ok h g h2 i hres
      obtain ⟨ihbound, ihpair⟩ := ih h2
      have hunf : add_goals h (g :: gs) = ((add_goals h2 gs).1, i :: (add_goals h2 gs).2) := by
        simp [add_goals, hres]
      rw [hunf]
      constructor
      · intro j hj
        rcases List.mem_cons.mp hj with rfl | hj'
        · omega
        · have := ihbound j hj'
          omega
      · rw [List.pairwise_cons]
        refine ⟨fun j hj => ?_, ihpair⟩
        have := ihbound j hj
        omega
    | err e =>
      have hunf : add_goals h (g :: gs) = (h2, []) := by simp [add_goals, hres]
      rw [hunf]; simp
    | fatal m =>
      have hunf : add_goals h (g :: gs) = (h2, []) := by simp [add_goals, hres]
      rw [hunf]; simp

/-- Main worklist invariant for the `get_all_children` loop.  On a well-formed
graph, started from a stack of graph nodes with visited mirrored by output and
visited closed under outgoing edges into `visited ∪ stack`, and with fuel
strictly above the loop's potential, the loop succeeds; the returned list
contains visited and the stack, is closed under outgoing edges, and contains
only visited elements and nodes reachable from the stack. -/
lemma gacLoop_spec (h : DefaultHolder) (hwf : h.goal_graph.WF) :
    ∀ (fuel : Nat) (stack visited output : List Nat),
      (∀ v ∈ stack, v ∈ h.goal_graph.nodes) →
      (∀ v ∈ visited, v ∈ h.goal_graph.nodes) →
      (∀ v, v ∈ visited ↔ v ∈ output) →
      (∀ v ∈ visited, ∀ c, (v, c) ∈ h.goal_graph.edges → c ∈ visited ∨ c ∈ stack) →
      stack.length + (h.goal_graph.nodes.filter (fun x => decide (x ∉ visited))).length *
          (h.goal_graph.edges.length + 1) < fuel →
      ∃ S, gacLoop h fuel stack visited output = Res.ok S ∧
        (∀ v ∈ visited, v ∈ S) ∧
        (∀ v ∈ stack, v ∈ S) ∧
        (∀ v ∈ S, ∀ c, (v, c) ∈ h.goal_graph.edges → c ∈ S) ∧
        (∀ y ∈ S, y ∈ visited ∨ ∃ v, v ∈ stack ∧ h.goal_graph.Reach v y) := by
  intro fuel
  induction fuel with
  | zero =>
    intro stack visited output _ _ _ _ hlt
    exact absurd hlt (Nat.not_lt_zero _)
  | succ n ih =>
    intro stack visited output hstk hvis hvo hcl hlt
    cases stack with
    | nil =>
      refine ⟨output, rfl, fun v hv => (hvo v).mp hv, ?_, ?_, ?_⟩
      · intro v hv; exact absurd hv (List.not_mem_nil v)
      · intro v hv c hc
        rcases hcl v ((hvo v).mpr hv) c hc with h1 | h1
        · exact (hvo c).mp h1
        · exact absurd h1 (List.not_mem_nil c)
      · intro y hy; exact Or.inl ((hvo y).mpr hy)
    | cons id rest =>
      by_cases hid : id ∈ visited
      · -- the popped id was already visited: skip it
        have hstep : gacLoop h (n + 1) (id :: rest) visited output
            = gacLoop h n rest visited output := by
          simp [gacLoop, hid]
        have hstk' : ∀ v ∈ rest, v ∈ h.goal_graph.nodes :=
          fun v hv => hstk v (List.mem_cons_of_mem _ hv)
        have hcl' : ∀ v ∈ visited, ∀ c, (v, c) ∈ h.goal_graph.edges →
            c ∈ visited ∨ c ∈ rest := by
          intro v hv c hc
          rcases hcl v hv c hc with h1 | h1
          · exact Or.inl h1
          · rcases List.mem_cons.mp h1 with rfl | h2
            · exact Or.inl hid
            · exact Or.inr h2
        have hlt' : rest.length +
            (h.goal_graph.nodes.filter (fun x => decide (x ∉ visited))).length *
              (h.goal_graph.edges.length + 1) < n := by
          revert hlt
          simp only [List.length_cons]
          generalize (h.goal_graph.nodes.filter (fun x => decide (x ∉ visited))).length *
            (h.goal_graph.edges.length + 1) = A
          intro hlt
          omega
        obtain ⟨S, hrun, hvS, hsS, hclS, hsnd⟩ := ih rest visited output hstk' hvis hvo hcl' hlt'
        refine ⟨S, hstep.trans hrun, hvS, ?_, hclS, ?_⟩
        · intro v hv
          rcases List.mem_cons.mp hv with rfl | hv'
          · exact hvS v hid
          · exact hsS v hv'
        · intro y hy
          rcases hsnd y hy with h1 | ⟨v, hv, hr⟩
          · exact Or.inl h1
          · exact Or.inr ⟨v, List.mem_cons_of_mem _ hv, hr⟩
      · -- the popped id is new: record it and push its direct children
        have hidn : id ∈ h.goal_graph.nodes := hstk id (List.mem_cons_self id rest)
        have hgdc : get_direct_children h id =
            Res.ok (h.goal_graph.edges.filterMap
              (fun e => if e.1 = id then some e.2 else none)) := by
          simp [get_direct_children, hidn]
        have hchmem : ∀ c, c ∈ h.goal_graph.edges.filterMap
            (fun e => if e.1 = id then some e.2 else none) ↔
            (id, c) ∈ h.goal_graph.edges := by
          intro c
          constructor
          · intro hc
            rcases List.mem_filterMap.mp hc with ⟨e, he, hfe⟩
            by_cases h1 : e.1 = id
            · rw [if_pos h1] at hfe
              have h2 : e.2 = c := Option.some.inj hfe
              have : e = (id, c) := by
                rcases e with ⟨e1, e2⟩
                simp only at h1 h2
                rw [h1, h2]
              rw [← this]; exact he
            · rw [if_neg h1] at hfe
              exact absurd hfe (Option.noConfusion)
          · intro he
            exact List.mem_filterMap.mpr ⟨(id, c), he, by simp⟩
        have hstep : gacLoop h (n + 1) (id :: rest) visited output
            = gacLoop h n
                ((h.goal_graph.edges.filterMap
                  (fun e => if e.1 = id then some e.2 else none)).foldl
                    (fun s c => c :: s) rest)
                (id :: visited) (id :: output) := by
          simp only [gacLoop]
          rw [if_neg hid, hgdc]
        have hs'mem : ∀ v, v ∈ (h.goal_graph.edges.filterMap
            (fun e => if e.1 = id then some e.2 else none)).foldl
              (fun s c => c :: s) rest ↔
            (id, v) ∈ h.goal_graph.edges ∨ v ∈ rest := by
          intro v
          rw [foldl_cons_eq]
          simp only [List.mem_append, List.mem_reverse]
          rw [hchmem v]
        have hstk'' : ∀ v ∈ (h.goal_graph.edges.filterMap
            (fun e => if e.1 = id then some e.2 else none)).foldl
              (fun s c => c :: s) rest, v ∈ h.goal_graph.nodes := by
          intro v hv
          rcases (hs'mem v).mp hv with h1 | h1
          · exact (hwf (id, v) h1).2
          · exact hstk v (List.mem_cons_of_mem _ h1)
        have hvis'' : ∀ v ∈ id :: visited, v ∈ h.goal_graph.nodes := by
          intro v hv
          rcases List.mem_cons.mp hv with rfl | hv'
          · exact hidn
          · exact hvis v hv'
        have hvo'' : ∀ v, v ∈ id :: visited ↔ v ∈ id :: output := by
          intro v
          simp only [List.mem_cons]
          rw [hvo v]
        have hcl'' : ∀ v ∈ id :: visited, ∀ c, (v, c) ∈ h.goal_graph.edges →
            c ∈ id :: visited ∨ c ∈ (h.goal_graph.edges.filterMap
              (fun e => if e.1 = id then some e.2 else none)).foldl
                (fun s c => c :: s) rest := by
          intro v hv c hc
          rcases List.mem_cons.mp hv with rfl | hv'
          · exact Or.inr ((hs'mem c).mpr (Or.inl hc))
          · rcases hcl v hv' c hc with h1 | h1
            · exact Or.inl (List.mem_cons_of_mem _ h1)
            · rcases List.mem_cons.mp h1 with rfl | h2
              · exact Or.inl (List.mem_cons_self _ _)
              · exact Or.inr ((hs'mem c).mpr (Or.inr h2))
        have hlt'' : ((h.goal_graph.edges.filterMap
            (fun e => if e.1 = id then some e.2 else none)).foldl
              (fun s c => c :: s) rest).length +
            (h.goal_graph.nodes.filter (fun x => decide (x ∉ id :: visited))).length *
              (h.goal_graph.edges.length + 1) < n := by
          have hlen : ((h.goal_graph.edges.filterMap
              (fun e => if e.1 = id then some e.2 else none)).foldl
                (fun s c => c :: s) rest).length =
              (h.goal_graph.edges.filterMap
                (fun e => if e.1 = id then some e.2 else none)).length + rest.length := by
            rw [foldl_cons_eq]
            simp
          have hchlen : (h.goal_graph.edges.filterMap
              (fun e => if e.1 = id then some e.2 else none)).length ≤
              h.goal_graph.edges.length := List.length_filterMap_le _ _
          have himp : ∀ x, decide (x ∉ id :: visited) = true →
              decide (x ∉ visited) = true := by
            intro x hx
            simp only [decide_eq_true_eq, List.mem_cons] at hx ⊢
            exact fun hm => hx (Or.inr hm)
          have hult : (h.goal_graph.nodes.filter
              (fun x => decide (x ∉ id :: visited))).length <
              (h.goal_graph.nodes.filter (fun x => decide (x ∉ visited))).length := by
            refine filter_length_lt_of_witness _ _ himp _ id hidn ?_ ?_
            · simp
            · simp [hid]
          have hmul : ((h.goal_graph.nodes.filter
              (fun x => decide (x ∉ id :: visited))).length + 1) *
                (h.goal_graph.edges.length + 1) ≤
              (h.goal_graph.nodes.filter (fun x => decide (x ∉ visited))).length *
                (h.goal_graph.edges.length + 1) :=
            mul_le_mul_right' hult _
          rw [Nat.succ_mul] at hmul
          rw [hlen]
          revert hlt hmul hchlen
          simp only [List.length_cons]
          generalize (h.goal_graph.nodes.filter
            (fun x => decide (x ∉ id :: visited))).length *
              (h.goal_graph.edges.length + 1) = A
          generalize (h.goal_graph.nodes.filter
            (fun x => decide (x ∉ visited))).length *
              (h.goal_graph.edges.length + 1) = B
          intro hchlen hmul hlt
          omega
        obtain ⟨S, hrun, hvS, hsS, hclS, hsnd⟩ :=
          ih _ (id :: visited) (id :: output) hstk'' hvis'' hvo'' hcl'' hlt''
        refine ⟨S, hstep.trans hrun, ?_, ?_, hclS, ?_⟩
        · intro v hv; exact hvS v (List.mem_cons_of_mem _ hv)
        · intro v hv
          rcases List.mem_cons.mp hv with rfl | hv'
          · exact hvS v (List.mem_cons_self _ _)
          · exact hsS v ((hs'mem v).mpr (Or.inr hv'))
        · intro y hy
          rcases hsnd y hy with h1 | ⟨v, hv, hr⟩
          · rcases List.mem_cons.mp h1 with rfl | h2
            · exact Or.inr ⟨y, List.mem_cons_self _ _, GGraph.Reach.refl y⟩
            · exact Or.inl h2
          · rcases (hs'mem v).mp hv with h1 | h1
            · have hreach : h.goal_graph.Reach id y :=
                GGraph.Reach.trans (GGraph.Reach.step (GGraph.Reach.refl id) h1) hr
              exact Or.inr ⟨id, List.mem_cons_self _ _, hreach⟩
            · exact Or.inr ⟨v, List.mem_cons_of_mem _ h1, hr⟩

/-- Whenever the loop returns a list, that list contains every element of the
stack and of the output accumulator (provided visited is inside output, which
the loop maintains). -/
lemma gacLoop_sub (h : DefaultHolder) :
    ∀ (fuel : Nat) (stack visited output S : List Nat),
      (∀ v ∈ visited, v ∈ output) →
      gacLoop h fuel stack visited output = Res.ok S →
      (∀ v ∈ stack, v ∈ S) ∧ (∀ v ∈ output, v ∈ S) := by
  intro fuel
  induction fuel with
  | zero =>
    intro stack visited output S _ hrun
    simp [gacLoop] at hrun
  | succ n ih =>
    intro stack visited output S hvo hrun
    cases stack with
    | nil =>
      have hSo : output = S := by simpa [gacLoop] using hrun
      subst hSo
      exact ⟨fun v hv => absurd hv (List.not_mem_nil v), fun v hv => hv⟩
    | cons id rest =>
      by_cases hid : id ∈ visited
      · have hrun' : gacLoop h n rest visited output = Res.ok S := by
          simpa [gacLoop, hid] using hrun
        obtain ⟨hs, ho⟩ := ih rest visited output S hvo hrun'
        refine ⟨fun v hv => ?_, ho⟩
        rcases List.mem_cons.mp hv with rfl | hv'
        · exact ho v (hvo v hid)
        · exact hs v hv'
      · cases hgdc : get_direct_children h id with
        | err e => simp [gacLoop, hid, hgdc] at hrun
        | fatal m => simp [gacLoop, hid, hgdc] at hrun
        | ok children =>
          have hrun' : gacLoop h n (children.foldl (fun s c => c :: s) rest)
              (id :: visited) (id :: output) = Res.ok S := by
            simpa [gacLoop, hid, hgdc] using hrun
          have hvo' : ∀ v ∈ id :: visited, v ∈ id :: output := by
            intro v hv
            rcases List.mem_cons.mp hv with rfl | hv'
            · exact List.mem_cons_self _ _
            · exact List.mem_cons_of_mem _ (hvo v hv')
          obtain ⟨hs, ho⟩ := ih _ _ _ S hvo' hrun'
          constructor
          · intro v hv
            rcases List.mem_cons.mp hv with rfl | hv'
            · exact ho v (List.mem_cons_self _ _)
            · refine hs v ?_
              rw [foldl_cons_eq]
              exact List.mem_append.mpr (Or.inr hv')
          · intro v hv
            exact ho v (List.mem_cons_of_mem _ hv)

/-- A successful `get_all_children` always contains the starting identifier. -/
lemma get_all_children_mem_self (h : DefaultHolder) (id : Nat) (S : List Nat)
    (hS : get_all_children h id = Res.ok S) : id ∈ S := by
  have := gacLoop_sub h (gacFuel h) [id] [] [] S
    (fun v hv => absurd hv (List.not_mem_nil v)) hS
  exact this.1 id (List.mem_singleton.mpr rfl)

/-- The outcome scan returns `true` exactly when every listed identifier
currently has a `Finished` status. -/
lemma acfLoop_ok_true_iff (h : DefaultHolder) (l : List Nat) :
    acfLoop h l = Res.ok true ↔
      ∀ c ∈ l, ∃ o, get_goal_outcome h c = Res.ok (Status.finished o) := by
  induction l with
  | nil => simp [acfLoop]
  | cons c rest ih =>
    cases hc : get_goal_outcome h c with
    | ok st =>
      cases st with
      | waiting => simp [acfLoop, hc]
      | inProgress => simp [acfLoop, hc]
      | finished o => simp [acfLoop, hc, ih]
    | err e => simp [acfLoop, hc]
    | fatal m => simp [acfLoop, hc]

/-- A typed error from the outcome scan comes from some listed identifier's
outcome lookup. -/
lemma acfLoop_err (h : DefaultHolder) (l : List Nat) (e : GoalError) :
    acfLoop h l = Res.err e → ∃ c ∈ l, get_goal_outcome h c = Res.err e := by
  induction l with
  | nil => intro hrun; simp [acfLoop] at hrun
  | cons c rest ih =>
    intro hrun
    cases hc : get_goal_outcome h c with
    | ok st =>
      cases st with
      | waiting => rw [acfLoop, hc] at hrun; simp at hrun
      | inProgress => rw [acfLoop, hc] at hrun; simp at hrun
      | finished o =>
        rw [acfLoop, hc] at hrun
        obtain ⟨c', hc', he⟩ := ih hrun
        exact ⟨c', List.mem_cons_of_mem _ hc', he⟩
    | err e' =>
      rw [acfLoop, hc] at hrun
      obtain rfl : e' = e := by simpa using hrun
      exact ⟨c, List.mem_cons_self _ _, hc⟩
    | fatal m => rw [acfLoop, hc] at hrun; simp at hrun

/-- If every listed identifier's outcome lookup succeeds, the scan returns a
boolean. -/
lemma acfLoop_total (h : DefaultHolder) (l : List Nat)
    (hall : ∀ c ∈ l, ∃ st, get_goal_outcome h c = Res.ok st) :
    ∃ b, acfLoop h l = Res.ok b := by
  induction l with
  | nil => exact ⟨true, rfl⟩
  | cons c rest ih =>
    obtain ⟨st, hst⟩ := hall c (List.mem_cons_self _ _)
    cases st with
    | waiting => exact ⟨false, by simp [acfLoop, hst]⟩
    | inProgress => exact ⟨false, by simp [acfLoop, hst]⟩
    | finished o =>
      obtain ⟨b, hb⟩ := ih (fun c' hc' => hall c' (List.mem_cons_of_mem _ hc'))
      exact ⟨b, by simp [acfLoop, hst, hb]⟩

/-- A concrete holder used by the witnesses below: the two-node tree
build(1) → compile(2), with compile finished and build still waiting. -/
def exTree : DefaultHolder :=
  { name_to_id := [("compile", 2), ("build", 1)]
    all_ids := [1, 2]
    goal_id_to_status := [(2, Status.finished Outcome.success)]
    default_status := Status.waiting
    next_id := 3
    goal_graph := { nodes := [1, 2], edges := [(1, 2)] }
    handler_log := [] }

/-- C1: registering a fresh goal does map its name to the returned identifier,
but — contrary to the claim — the identifier is NOT added to the holder's id
set (`add_goal` never writes `all_ids`, which no code in src/ ever populates),
so `get_goal_outcome` on the fresh identifier returns the typed `MissingGoal`
error instead of the default Waiting status. -/
theorem c1_add_goal_missing_id_set : ∃ h1 : DefaultHolder,
    add_goal DefaultHolder.initial { name := "build", parent_goal := none, child_goals := [] }
      = (h1, Res.ok 1)
    ∧ get_goal_id h1 "build" = Res.ok 1
    ∧ 1 ∉ h1.all_ids
    ∧ get_goal_outcome h1 1 = Res.err (GoalError.missingGoal 1) := by
  refine ⟨{ name_to_id := [("build", 1)], all_ids := [], goal_id_to_status := [],
            default_status := Status.waiting, next_id := 2,
            goal_graph := { nodes := [1], edges := [] }, handler_log := [] }, ?_⟩
  decide

/-- C2: the spawn protocol never hands the registered identifier back to the
child.  With the goal's own sentinel `my_id = 0` (the only value the source
can ever produce, since nothing assigns `my_id`), spawning panics at the
child-constructor assertion; and even from a hypothetical parent with a real
identifier, the child returned by `sub_goal` still carries `my_id = 0` while
its name maps to the freshly assigned identifier 1 — `holder.add_goal(&goal)`
discards the returned id. -/
theorem c2_sub_goal_discards_id :
    DefaultGoal.sub_goal
        { name := "build", parent_goal := 1, my_id := 0, child_goals := [] }
        DefaultHolder.initial "compile" none
      = Res.fatal "Must have a parent goal"
    ∧ ∃ (g : DefaultGoal) (h2 : DefaultHolder),
        DefaultGoal.sub_goal
            { name := "build", parent_goal := 1, my_id := 7, child_goals := [] }
            DefaultHolder.initial "compile" none
          = Res.ok (g, h2)
        ∧ g.my_id = 0
        ∧ get_goal_id h2 g.name = Res.ok 1 := by
  refine ⟨by decide,
    ⟨{ name := "compile", parent_goal := 7, my_id := 0, child_goals := [] },
     { name_to_id := [("compile", 1)], all_ids := [], goal_id_to_status := [],
       default_status := Status.waiting, next_id := 2,
       goal_graph := { nodes := [1, 7], edges := [(7, 1)] }, handler_log := [] }, ?_⟩⟩
  decide

/-- C3: immediately after constructing a container, `all_goals` does not
succeed: `RootGoal::new` never registers the root with the holder, so the
root's name is absent from the name index and the `unwrap` on `get_goal_id`
panics. -/
theorem c3_container_all_goals_fatal :
    GoalContainer.all_goals (GoalContainer.new "build" DefaultHolder.initial)
      = Res.fatal "called unwrap on an Err value" := by
  decide

/-- C4: `get_parent` on a registered child does return its spawner, but on the
root — a node with zero incoming edges — it does not "yield no parent": the
`result.remove(0)` on the empty incoming-neighbour `Vec` panics, so the
zero-edge case is fatal too, not only the more-than-one-edge case. -/
theorem c4_get_parent_root_fatal : ∃ h1 h2 : DefaultHolder,
    add_goal DefaultHolder.initial { name := "build", parent_goal := none, child_goals := [] }
      = (h1, Res.ok 1)
    ∧ add_goal h1 { name := "compile", parent_goal := some 1, child_goals := [] }
      = (h2, Res.ok 2)
    ∧ get_parent h2 2 = Res.ok 1
    ∧ get_parent h2 1 = Res.fatal "removal index (is 0) should be < len (is 0)" := by
  refine ⟨{ name_to_id := [("build", 1)], all_ids := [], goal_id_to_status := [],
            default_status := Status.waiting, next_id := 2,
            goal_graph := { nodes := [1], edges := [] }, handler_log := [] },
          { name_to_id := [("compile", 2), ("build", 1)], all_ids := [],
            goal_id_to_status := [], default_status := Status.waiting, next_id := 3,
            goal_graph := { nodes := [1, 2], edges := [(1, 2)] }, handler_log := [] }, ?_⟩
  decide

/-- C5: setting a registered goal's status twice does overwrite the status
table last-write-wins (the table ends up holding only the second status), but
the subsequent `get_goal_outcome` call for that identifier returns the typed
`MissingGoal` error rather than the latest status, because registration never
added the identifier to `all_ids`. -/
theorem c5_last_write_wins_but_outcome_errs : ∃ h1 h2 h3 : DefaultHolder,
    add_goal DefaultHolder.initial { name := "build", parent_goal := none, child_goals := [] }
      = (h1, Res.ok 1)
    ∧ set_goal_status h1 { name := "build", parent_goal := none, child_goals := [] }
        Status.inProgress = (h2, Res.ok ())
    ∧ set_goal_status h2 { name := "build", parent_goal := none, child_goals := [] }
        (Status.finished Outcome.success) = (h3, Res.ok ())
    ∧ alookup h3.goal_id_to_status 1 = some (Status.finished Outcome.success)
    ∧ get_goal_outcome h3 1 = Res.err (GoalError.missingGoal 1) := by
  refine ⟨{ name_to_id := [("build", 1)], all_ids := [], goal_id_to_status := [],
            default_status := Status.waiting, next_id := 2,
            goal_graph := { nodes := [1], edges := [] }, handler_log := [] },
          { name_to_id := [("build", 1)], all_ids := [],
            goal_id_to_status := [(1, Status.inProgress)],
            default_status := Status.waiting, next_id := 2,
            goal_graph := { nodes := [1], edges := [] },
            handler_log := [("build", Status.inProgress)] },
          { name_to_id := [("build", 1)], all_ids := [],
            goal_id_to_status := [(1, Status.finished Outcome.success)],
            default_status := Status.waiting, next_id := 2,
            goal_graph := { nodes := [1], edges := [] },
            handler_log := [("build", Status.inProgress),
                            ("build", Status.finished Outcome.success)] }, ?_⟩
  decide

/-- C6: across any sequence of `add_goal` calls on the same holder, the
identifiers handed out to successful registrations are strictly increasing,
hence pairwise distinct and never reused (the counter is bumped on every call
and nothing ever decrements it or removes a goal). -/
theorem c6_identifiers_never_shared (h : DefaultHolder) (gs : List GoalRec) :
    ((add_goals h gs).2).Pairwise (fun a b => a < b) ∧ ((add_goals h gs).2).Nodup :=
  ⟨(add_goals_ids gs h).2,
    List.Pairwise.imp (fun hab => Nat.ne_of_lt hab) (add_goals_ids gs h).2⟩

/-- C7: on a well-formed graph (an invariant of every graph the holder
builds), `get_all_children` succeeds for any identifier present in the graph
and returns exactly the identifiers reachable from it — the id itself together
with the transitive closure of its descendants.  The operation is a pure
`&self` read in the embedding, so repeating it without intervening mutation
trivially returns the same set and leaves the holder untouched. -/
theorem c7_get_all_children_reachable (h : DefaultHolder) (id : Nat)
    (hwf : h.goal_graph.WF) (hid : id ∈ h.goal_graph.nodes) :
    ∃ S, get_all_children h id = Res.ok S ∧
      ∀ y, y ∈ S ↔ h.goal_graph.Reach id y := by
  obtain ⟨S, hrun, hvS, hsS, hclS, hsnd⟩ :=
    gacLoop_spec h hwf (gacFuel h) [id] [] []
      (by intro v hv; rw [List.mem_singleton] at hv; subst hv; exact hid)
      (by intro v hv; exact absurd hv (List.not_mem_nil v))
      (fun v => Iff.rfl)
      (by intro v hv; exact absurd hv (List.not_mem_nil v))
      (by
        have h1 : (h.goal_graph.nodes.filter
            (fun x => decide (x ∉ ([] : List Nat)))).length ≤
            h.goal_graph.nodes.length := List.length_filter_le _ _
        have h2 : (h.goal_graph.nodes.filter
            (fun x => decide (x ∉ ([] : List Nat)))).length *
              (h.goal_graph.edges.length + 1) ≤
            h.goal_graph.nodes.length * (h.goal_graph.edges.length + 1) :=
          mul_le_mul_right' h1 _
        simp only [gacFuel, List.length_singleton]
        revert h2
        generalize (h.goal_graph.nodes.filter
          (fun x => decide (x ∉ ([] : List Nat)))).length *
            (h.goal_graph.edges.length + 1) = A
        generalize h.goal_graph.nodes.length * (h.goal_graph.edges.length + 1) = B
        intro h2
        omega)
  refine ⟨S, hrun, fun y => ⟨?_, ?_⟩⟩
  · intro hy
    rcases hsnd y hy with h1 | ⟨v, hv, hr⟩
    · exact absurd h1 (List.not_mem_nil y)
    · rw [List.mem_singleton] at hv
      subst hv
      exact hr
  · intro hr
    exact reach_mem_of_closed h.goal_graph S hclS (hsS id (List.mem_singleton.mpr rfl)) hr

/-- Witness for C7 on the concrete two-node tree. -/
theorem c7_witness :
    (exTree.goal_graph.WF ∧ 1 ∈ exTree.goal_graph.nodes)
    ∧ ∃ S, get_all_children exTree 1 = Res.ok S ∧
        ∀ y, y ∈ S ↔ exTree.goal_graph.Reach 1 y :=
  ⟨⟨by decide, by decide⟩, c7_get_all_children_reachable exTree 1 (by decide) (by decide)⟩

/-- C8: given the traversal's result set `S`, `all_children_finished` returns
`Ok(true)` iff every identifier in `S` (which includes the starting id) has a
`Finished` status; a typed error it returns always is the lookup error of some
identifier in `S` (short-circuit propagation, no partial result); and when all
lookups succeed but the goal itself is still Waiting or InProgress, it returns
`Ok(false)`. -/
theorem c8_all_children_finished_iff (h : DefaultHolder) (id : Nat) (S : List Nat)
    (hS : get_all_children h id = Res.ok S) :
    (all_children_finished h id = Res.ok true ↔
      ∀ c ∈ S, ∃ o, get_goal_outcome h c = Res.ok (Status.finished o))
    ∧ (∀ e, all_children_finished h id = Res.err e →
        ∃ c ∈ S, get_goal_outcome h c = Res.err e)
    ∧ ((∀ c ∈ S, ∃ st, get_goal_outcome h c = Res.ok st) →
        ∀ st, get_goal_outcome h id = Res.ok st →
        (st = Status.waiting ∨ st = Status.inProgress) →
        all_children_finished h id = Res.ok false) := by
  have hacf : all_children_finished h id = acfLoop h S := by
    simp [all_children_finished, hS]
  refine ⟨by rw [hacf]; exact acfLoop_ok_true_iff h S, ?_, ?_⟩
  · intro e he
    rw [hacf] at he
    exact acfLoop_err h S e he
  · intro hall st hst hwi
    obtain ⟨b, hb⟩ := acfLoop_total h S hall
    have hidS : id ∈ S := get_all_children_mem_self h id S hS
    cases b with
    | false => rw [hacf]; exact hb
    | true =>
      exfalso
      obtain ⟨o, ho⟩ := (acfLoop_ok_true_iff h S).mp hb id hidS
      rw [hst] at ho
      have hstf : st = Status.finished o := by simpa using ho
      rcases hwi with rfl | rfl
      · exact Status.noConfusion hstf
      · exact Status.noConfusion hstf

/-- Witness for C8 on the concrete two-node tree. -/
theorem c8_witness :
    get_all_children exTree 1 = Res.ok [2, 1]
    ∧ ((all_children_finished exTree 1 = Res.ok true ↔
         ∀ c ∈ ([2, 1] : List Nat), ∃ o, get_goal_outcome exTree c = Res.ok (Status.finished o))
       ∧ (∀ e, all_children_finished exTree 1 = Res.err e →
           ∃ c ∈ ([2, 1] : List Nat), get_goal_outcome exTree c = Res.err e)
       ∧ ((∀ c ∈ ([2, 1] : List Nat), ∃ st, get_goal_outcome exTree c = Res.ok st) →
           ∀ st, get_goal_outcome exTree 1 = Res.ok st →
           (st = Status.waiting ∨ st = Status.inProgress) →
           all_children_finished exTree 1 = Res.ok false)) :=
  ⟨by decide, c8_all_children_finished_iff exTree 1 [2, 1] (by decide)⟩

/-- C9: registering a goal whose name is already mapped is a hard failure (the
`panic!` in `add_goal`), whatever the parents of either goal are: the call
aborts fatally and the name index is left exactly as it was — never silently
overwritten. -/
theorem c9_duplicate_name_fatal (h : DefaultHolder) (goal : GoalRec) (i : Nat)
    (hdup : alookup h.name_to_id goal.name = some i) :
    (add_goal h goal).2 = Res.fatal ("Goal Already Exists (name = " ++ goal.name ++ ")")
    ∧ (add_goal h goal).1.name_to_id = h.name_to_id := by
  simp [add_goal, hdup]

/-- Witness for C9: re-registering the name `build` (under a different parent
and with pre-declared children) on the concrete tree fails fatally. -/
theorem c9_witness :
    alookup exTree.name_to_id "build" = some 1
    ∧ ((add_goal exTree { name := "build", parent_goal := some 2, child_goals := [5] }).2
        = Res.fatal ("Goal Already Exists (name = " ++ "build" ++ ")")
      ∧ (add_goal exTree
          { name := "build", parent_goal := some 2, child_goals := [5] }).1.name_to_id
        = exTree.name_to_id) :=
  ⟨by decide,
    c9_duplicate_name_fatal exTree
      { name := "build", parent_goal := some 2, child_goals := [5] } 1 (by decide)⟩

/-- C10: setting the status of a goal whose name is absent from the name index
returns the typed `MissingGoalName` error and leaves the holder completely
unchanged — in particular the status table is untouched and the observer log
records no `handle_goal_status_change` notification. -/
theorem c10_set_status_missing_name (h : DefaultHolder) (goal : GoalRec) (status : Status)
    (habs : alookup h.name_to_id goal.name = none) :
    set_goal_status h goal status = (h, Res.err (GoalError.missingGoalName goal.name)) := by
  simp [set_goal_status, get_goal_id, habs]

/-- Witness for C10 on the concrete tree with an unknown goal name. -/
theorem c10_witness :
    alookup exTree.name_to_id "ghost" = none
    ∧ set_goal_status exTree { name := "ghost", parent_goal := none, child_goals := [] }
        Status.inProgress = (exTree, Res.err (GoalError.missingGoalName "ghost")) :=
  ⟨by decide,
    c10_set_status_missing_name exTree
      { name := "ghost", parent_goal := none, child_goals := [] } Status.inProgress (by decide)⟩

end LoadRs
